import Mathlib

/-!
Verification of the JiggleCoord core (src/JiggleCoord/core.py).

The development shallowly embeds the two core functions of the repository:

* `generate_snowflake_coordinates` — breadth-first, layered snowflake
  expansion of candidate coordinates (source lines 10-74).
* `geocode_location` — the fallback geocoding resolver (source lines 76-142),
  together with the per-row post-processing step of `geopy_df_geocoder`
  that fills in the `status` field (source lines 198-209).

Embedding choices, documented once here:

* Python dicts are modelled as association lists (`Dict`) over a small
  value type `Val` (string, machine integer as `Nat`, `None`).
* The numeric step of the generator — parse the parent string into two
  floats, run the spherical direct-geodesic formula, format the result
  back into a string — is abstracted into a parameter
  `proj : String → Nat → D → String` (parent string, bearing in degrees,
  distance).  All structural theorems about the generator hold for every
  such `proj`.  The geodesic formula itself is modelled separately over
  the real numbers (`projectPoint`), idealising IEEE doubles as reals.
* Python's `float(...)` acceptance of a token is modelled by `isPyFloat`
  (optional whitespace, optional sign, inf/infinity/nan case-insensitively,
  or a decimal literal with underscores between digits and an optional
  exponent), and `str.split(',')` by `String.splitOn ","`, which has the
  same semantics for a one-character separator.
* The external geocoding client is a parameter
  `client : String → Nat → Option Loc` (coordinate string, zoom level).
  The `RateLimiter` wrapper in the source is constructed with
  `swallow_exceptions=True`, so from the resolver's point of view a call
  either yields a location or `None`; the `except` clause inside the
  fallback loop performs no state change, so a raising call is
  behaviourally identical to a `None` reply and is not modelled separately.
* Raising `ValueError` is modelled by `Except String`; the list of network
  calls made (coordinate, zoom) is returned alongside the result so that
  claims about the number of calls can be stated.
* `GenState.log` is a ghost field: it records every enqueue event
  (coordinate, layer) performed on `points_to_process`, including the
  initial seeding with the origin.  It adds no behaviour; it only makes
  the scheduling history of a run observable for the invariant claims.
-/

/-- Values stored in the modelled Python dictionaries. -/
inductive Val where
  | s (v : String)
  | n (v : Nat)
  | null
deriving DecidableEq, Repr

/-- A Python dictionary with string keys, as an association list. -/
abbrev Dict := List (String × Val)

/-- Lookup in an association list (Python `d.get(k)` / `d[k]`). -/
def aGet {α : Type} : List (String × α) → String → Option α
  | [], _ => none
  | (k, v) :: rest, x => if k = x then some v else aGet rest x

/-- Update/insert in an association list (Python `d[k] = v`). -/
def aSet {α : Type} : List (String × α) → String → α → List (String × α)
  | [], x, v => [(x, v)]
  | (k, w) :: rest, x, v => if k = x then (x, v) :: rest else (k, w) :: aSet rest x v

/-- Python `d.update(e)`: fold the entries of `e` into `d`. -/
def dupdate : Dict → Dict → Dict
  | d, [] => d
  | d, (k, v) :: rest => dupdate (aSet d k v) rest

/-- Membership test (Python `k in d`). -/
def dmem (d : Dict) (k : String) : Bool := (aGet d k).isSome

/-! ### Python float-literal acceptance (model of `float(token)`) -/

/-- Continue a digit group: digits with single underscores strictly between
digits, as accepted by CPython.  Returns the unconsumed remainder. -/
def digitsUCont : List Char → List Char
  | '_' :: c :: cs => if c.isDigit then digitsUCont cs else '_' :: c :: cs
  | c :: cs => if c.isDigit then digitsUCont cs else c :: cs
  | [] => []

/-- A nonempty digit group (with underscores between digits); `none` when the
input does not start with a digit, otherwise the unconsumed remainder. -/
def digitsU : List Char → Option (List Char)
  | c :: cs => if c.isDigit then some (digitsUCont cs) else none
  | [] => none

/-- The mantissa of a Python float literal: `digits [. [digits]]` or
`. digits`. -/
def pyMantissa (cs : List Char) : Option (List Char) :=
  match digitsU cs with
  | some rest =>
      match rest with
      | '.' :: rest2 =>
          match digitsU rest2 with
          | some rest3 => some rest3
          | none => some rest2
      | _ => some rest
  | none =>
      match cs with
      | '.' :: rest2 => digitsU rest2
      | _ => none

/-- An optional exponent part `('e'|'E') [sign] digits`. -/
def pyExponent : List Char → Option (List Char)
  | c :: cs =>
      if c = 'e' ∨ c = 'E' then
        match cs with
        | c2 :: cs2 => if c2 = '+' ∨ c2 = '-' then digitsU cs2 else digitsU (c2 :: cs2)
        | [] => none
      else some (c :: cs)
  | [] => some []

/-- A Python float literal without its sign: `inf`, `infinity`, `nan`
(case-insensitively) or a finite decimal literal. -/
def pyUnsigned (cs : List Char) : Bool :=
  let lcs := cs.map Char.toLower
  if lcs = "inf".toList ∨ lcs = "infinity".toList ∨ lcs = "nan".toList then true
  else
    match pyMantissa cs with
    | some rest => pyExponent rest = some []
    | none => false

/-- Python's `str.strip()` on a character list (ASCII whitespace). -/
def trimChars (cs : List Char) : List Char :=
  ((cs.dropWhile Char.isWhitespace).reverse.dropWhile Char.isWhitespace).reverse

/-- Whether Python's `float(...)` accepts the token: surrounding whitespace
is stripped, then an optional sign precedes an unsigned float literal. -/
def isPyFloatChars (cs : List Char) : Bool :=
  match trimChars cs with
  | '+' :: rest => pyUnsigned rest
  | '-' :: rest => pyUnsigned rest
  | cs2 => pyUnsigned cs2

/-- Whether Python's `float(s)` accepts the string `s`. -/
def isPyFloat (s : String) : Bool := isPyFloatChars s.toList

/-- Python's `str.split(',')` on a character list: split on every comma,
keeping empty parts (so the result always has one more part than there
are commas). -/
def splitCommaChars : List Char → List (List Char)
  | [] => [[]]
  | c :: cs =>
      if c = ',' then [] :: splitCommaChars cs
      else
        match splitCommaChars cs with
        | t :: ts => (c :: t) :: ts
        | [] => [[c]]

/-- Whether `lat, lon = map(float, coord_str.split(','))` succeeds: exactly
two comma-separated tokens, each accepted by `float`. -/
def wellFormedCoord (s : String) : Bool :=
  match splitCommaChars s.toList with
  | [a, b] => isPyFloatChars a && isPyFloatChars b
  | _ => false

/-- The message of the `ValueError` raised by
`generate_snowflake_coordinates` on a malformed coordinate string. -/
def snowflakeErrorMsg : String :=
  "Input coordinate string must be in 'latitude, longitude' format."

/-! ### The snowflake generator (source lines 10-74) -/

/-- One row of the returned DataFrame:
`{'parent_coord', 'new_coord', 'layer', 'direction', 'distance'}`. -/
structure Record (D : Type) where
  parent_coord : String
  new_coord : String
  layer : Nat
  direction : String
  distance : D
deriving DecidableEq, Repr

/-- The eight bearings (degrees) paired with their direction names, in the
fixed order of the source's `bearings_deg` and `direction_names` lists. -/
def bearingsDirections : List (Nat × String) :=
  [(0, "N"), (45, "NE"), (90, "E"), (135, "SE"),
   (180, "S"), (225, "SW"), (270, "W"), (315, "NW")]

/-- Generator state: `queue` is `points_to_process`, `points` is
`all_points`, `records` is `all_records`; `log` is the ghost enqueue
trace (see the header comment). -/
structure GenState (D : Type) where
  queue : List (String × Nat)
  points : List (String × Nat)
  records : List (Record D)
  log : List (String × Nat)

/-- The guarded visited-set update of the source:
`if new_coord_str not in all_points or all_points[new_coord_str] > current_layer:`
then record the layer and enqueue the candidate.  Returns
(points, queue, log). -/
def visitUpdate (points queue log : List (String × Nat)) (c : String) (layer : Nat) :
    List (String × Nat) × List (String × Nat) × List (String × Nat) :=
  if (match aGet points c with
      | none => true
      | some l => decide (layer < l)) = true then
    (aSet points c layer, queue ++ [(c, layer)], log ++ [(c, layer)])
  else
    (points, queue, log)

/-- One iteration of the inner bearing loop for one `(bearing, direction)`
pair: compute the candidate, run the visited-set update, and emit the
perturbation record unconditionally. -/
def expandStep {D : Type} (proj : String → Nat → D → String) (d : D) (layer : Nat)
    (parent : String) (st : GenState D) (bd : Nat × String) : GenState D :=
  let c := proj parent bd.1 d
  let u := visitUpdate st.points st.queue st.log c layer
  { queue := u.2.1
    points := u.1
    records := st.records ++ [⟨parent, c, layer, bd.2, d⟩]
    log := u.2.2 }

/-- Expanding one dequeued parent over the eight bearings in order. -/
def expandPoint {D : Type} (proj : String → Nat → D → String) (d : D) (layer : Nat)
    (parent : String) (st : GenState D) : GenState D :=
  bearingsDirections.foldl (expandStep proj d layer parent) st

/-- Processing one distance: the frontier (the whole queue at the start of
the pass, since the source dequeues exactly `len(points_to_process)`
entries) is expanded parent by parent. -/
def processLevel {D : Type} (proj : String → Nat → D → String) (d : D) (layer : Nat)
    (st : GenState D) (frontier : List (String × Nat)) : GenState D :=
  frontier.foldl (fun s p => expandPoint proj d layer p.1 s) st

/-- The outer `while distances_to_process:` loop; `layer` is
`current_layer`, incremented once per distance consumed. -/
def runLevels {D : Type} (proj : String → Nat → D → String) :
    List D → Nat → GenState D → GenState D
  | [], _, st => st
  | d :: ds, layer, st =>
      runLevels proj ds (layer + 1)
        (processLevel proj d layer { st with queue := [] } st.queue)

/-- The initial generator state: the work queue and visited set seeded with
the origin at layer 0, no records, and the origin's seeding logged. -/
def initGenState {D : Type} (origin : String) : GenState D :=
  { queue := [(origin, 0)]
    points := [(origin, 0)]
    records := []
    log := [(origin, 0)] }

/-- Embedding of `generate_snowflake_coordinates(coord_str, distance_meters_list)`:
parse (raising the format `ValueError` exactly when the parse fails),
then run the layered expansion and return the emitted records. -/
def generate_snowflake_coordinates {D : Type} (proj : String → Nat → D → String)
    (coord_str : String) (distance_meters_list : List D) :
    Except String (List (Record D)) :=
  if wellFormedCoord coord_str then
    .ok (runLevels proj distance_meters_list 1 (initGenState coord_str)).records
  else
    .error snowflakeErrorMsg

/-! ### The fallback geocoding resolver (source lines 76-142) -/

/-- A reply from the geocoding service: the raw JSON field mapping
(`location.raw`). -/
structure Loc where
  raw : Dict
deriving DecidableEq, Repr

/-- Lookup `location.raw.get('class')`. -/
def rawClass (loc : Loc) : Option Val := aGet loc.raw "class"

/-- The source's combined test
`if initial_location and initial_location.raw.get('class') != 'boundary'`:
`some loc` when the direct lookup is a usable (non-boundary) hit. -/
def directHit (resp : Option Loc) : Option Loc :=
  match resp with
  | some loc => if rawClass loc ≠ some (Val.s "boundary") then some loc else none
  | none => none

/-- One iteration of the fallback loop: call the client on the record's
candidate, and adopt a non-boundary result as the new best exactly when
its layer is strictly below the best layer so far (`None` plays the role
of `min_layer = inf`). -/
def scanStep {D : Type} (client : String → Option Loc)
    (best : Option (Loc × Nat)) (r : Record D) : Option (Loc × Nat) :=
  match client r.new_coord with
  | some loc =>
      if rawClass loc ≠ some (Val.s "boundary") then
        match best with
        | none => some (loc, r.layer)
        | some (bl, ml) => if r.layer < ml then some (loc, r.layer) else some (bl, ml)
      else best
  | none => best

/-- The fallback loop over the generated records in generation order. -/
def fallbackScan {D : Type} (client : String → Option Loc)
    (recs : List (Record D)) : Option (Loc × Nat) :=
  recs.foldl (scanStep client) none

/-- Whether a record's candidate coordinate yields a non-boundary result
from the (zoom-18) client. -/
def isHit {D : Type} (client : String → Option Loc) (r : Record D) : Bool :=
  match client r.new_coord with
  | some loc => decide (rawClass loc ≠ some (Val.s "boundary"))
  | none => false

/-- The failure status set by `geocode_location` when every attempt is
exhausted (note the trailing period in the source). -/
def failureMessage : String :=
  "Failed to find a suitable location after all attempts."

/-- Embedding of `geocode_location(coordinates, retries, perturb_levels, perturb_distance)`.
Returns the result dictionary together with the list of (coordinate, zoom)
reverse-geocode calls issued, or the propagated `ValueError` message. -/
def geocode_location {D : Type} (client : String → Nat → Option Loc)
    (coordinates : String) (proj : String → Nat → D → String)
    (perturb_levels : Int) (perturb_distance : D) :
    Except String (Dict × List (String × Nat)) :=
  let base : Dict := [("original_coordinate", Val.s coordinates)]
  match directHit (client coordinates 17) with
  | some loc =>
      .ok (aSet (dupdate base loc.raw) "perturbation_layer" (Val.n 0),
           [(coordinates, 17)])
  | none =>
      let distances : List D := List.replicate perturb_levels.toNat perturb_distance
      match generate_snowflake_coordinates proj coordinates distances with
      | .error e => .error e
      | .ok recs =>
          let calls := (coordinates, 17) :: recs.map (fun r => (r.new_coord, 18))
          match fallbackScan (fun s => client s 18) recs with
          | some (loc, minLayer) =>
              .ok (aSet (dupdate base loc.raw) "perturbation_layer" (Val.n minLayer), calls)
          | none =>
              .ok (aSet (aSet base "status" (Val.s failureMessage))
                     "perturbation_layer" Val.null, calls)

/-- The per-row step of `geopy_df_geocoder`: run `geocode_location`,
default the `status` field to `"Success"` when absent, and convert a
propagated error into the row-level failure record. -/
def geocode_row {D : Type} (client : String → Nat → Option Loc)
    (coordinates : String) (proj : String → Nat → D → String)
    (perturb_levels : Int) (perturb_distance : D) :
    Dict × List (String × Nat) :=
  match geocode_location client coordinates proj perturb_levels perturb_distance with
  | .ok (d, calls) =>
      (if dmem d "status" then d else aSet d "status" (Val.s "Success"), calls)
  | .error e =>
      ([("original_coordinate", Val.s coordinates),
        ("status", Val.s ("Processing failed due to an error: " ++ e)),
        ("perturbation_layer", Val.null)],
       [(coordinates, 17)])

/-! ### Structural lemmas for the snowflake generator -/

/-- The eight records one parent emits at one layer, in bearing order. -/
def recordsOfParent {D : Type} (proj : String → Nat → D → String) (d : D)
    (layer : Nat) (parent : String) : List (Record D) :=
  bearingsDirections.map (fun bd => ⟨parent, proj parent bd.1 d, layer, bd.2, d⟩)

/-- The records one whole frontier emits at one layer, parent by parent. -/
def levelRecords {D : Type} (proj : String → Nat → D → String) (d : D)
    (layer : Nat) : List (String × Nat) → List (Record D)
  | [] => []
  | p :: rest => recordsOfParent proj d layer p.1 ++ levelRecords proj d layer rest

/-- A concrete projection function used to instantiate the generator and
resolver theorems on explicit inputs: it tags the parent string with the
bearing, so all candidates are distinct strings. -/
def sampleProj (p : String) (b : Nat) (_d : Nat) : String := p ++ "#" ++ Nat.repr b

/-! ### Scheduling invariants of one generation run (ghost log) -/

/-- The invariant carried through a run at current layer `layer`: all
recorded visited-layers are at most `layer`; the logged (enqueued)
coordinates are pairwise distinct; every logged entry still has exactly
its logged layer in the visited set; the log's layers are nondecreasing
and bounded by `layer`; and every logged coordinate is a key of the
visited set. -/
def SchedInv {D : Type} (st : GenState D) (layer : Nat) : Prop :=
  (∀ x l, aGet st.points x = some l → l ≤ layer) ∧
  (st.log.map Prod.fst).Nodup ∧
  (∀ e ∈ st.log, aGet st.points e.1 = some e.2) ∧
  List.Chain' (fun a b => a.2 ≤ b.2) st.log ∧
  (∀ e ∈ st.log, e.2 ≤ layer) ∧
  (∀ x, aGet st.points x = none → x ∉ st.log.map Prod.fst)

/-- A concrete client for the spec's fallback scenario: the direct (zoom 17)
lookup of the origin answers with a boundary, only the E candidate at
zoom 18 answers with a non-boundary place, everything else yields
nothing. -/
def scenarioClient : String → Nat → Option Loc := fun s z =>
  if s = "40.758, -73.9855" ∧ z = 17 then some ⟨[("class", Val.s "boundary")]⟩
  else if s = "40.758, -73.9855#90" ∧ z = 18 then
    some ⟨[("class", Val.s "building"), ("type", Val.s "house")]⟩
  else none

def scenarioRecs : List (Record Nat) :=
  [⟨"40.758, -73.9855", "40.758, -73.9855#0", 1, "N", 1000⟩,
   ⟨"40.758, -73.9855", "40.758, -73.9855#45", 1, "NE", 1000⟩,
   ⟨"40.758, -73.9855", "40.758, -73.9855#90", 1, "E", 1000⟩,
   ⟨"40.758, -73.9855", "40.758, -73.9855#135", 1, "SE", 1000⟩,
   ⟨"40.758, -73.9855", "40.758, -73.9855#180", 1, "S", 1000⟩,
   ⟨"40.758, -73.9855", "40.758, -73.9855#225", 1, "SW", 1000⟩,
   ⟨"40.758, -73.9855", "40.758, -73.9855#270", 1, "W", 1000⟩,
   ⟨"40.758, -73.9855", "40.758, -73.9855#315", 1, "NW", 1000⟩]

def recsOneTwo : List (Record Nat) :=
  [⟨"1, 2", "1, 2#0", 1, "N", 5⟩, ⟨"1, 2", "1, 2#45", 1, "NE", 5⟩,
   ⟨"1, 2", "1, 2#90", 1, "E", 5⟩, ⟨"1, 2", "1, 2#135", 1, "SE", 5⟩,
   ⟨"1, 2", "1, 2#180", 1, "S", 5⟩, ⟨"1, 2", "1, 2#225", 1, "SW", 5⟩,
   ⟨"1, 2", "1, 2#270", 1, "W", 5⟩, ⟨"1, 2", "1, 2#315", 1, "NW", 5⟩]

def tourismLoc : Loc := ⟨[("class", Val.s "tourism"), ("type", Val.s "attraction")]⟩

def tourismClient : String → Nat → Option Loc := fun s z =>
  if s = "40.748817, -73.985428" ∧ z = 17 then some tourismLoc else none

/-! ### The geodesic formula over the reals (source lines 27 and 44-59)

The float arithmetic of the source is idealised as real arithmetic;
`atan2 y x` is the principal argument of the complex number `x + y i`,
which is exactly the mathematical contract of `math.atan2`. -/

noncomputable def atan2 (y x : ℝ) : ℝ := ((x : ℂ) + (y : ℂ) * Complex.I).arg

noncomputable def radians (x : ℝ) : ℝ := x * Real.pi / 180

noncomputable def degrees (x : ℝ) : ℝ := x * 180 / Real.pi

noncomputable def earthRadius : ℝ := 6371000

/-- The candidate-point computation of the inner loop (source lines 49-59):
`R = 6371000.0`, `δ = distance / R`,
`φ2 = asin(sin φ1 cos δ + cos φ1 sin δ cos θ)`,
`λ2 = λ1 + atan2(sin θ sin δ cos φ1, cos δ − sin φ1 sin φ2)`,
returned in degrees with no normalisation of the longitude. -/
noncomputable def projectPoint (lat lon bearing_deg distance_meters : ℝ) : ℝ × ℝ :=
  let lat1 := radians lat
  let lon1 := radians lon
  let bearing := radians bearing_deg
  let delta := distance_meters / earthRadius
  let lat2 := Real.arcsin (Real.sin lat1 * Real.cos delta +
      Real.cos lat1 * Real.sin delta * Real.cos bearing)
  let lon2 := lon1 + atan2
      (Real.sin bearing * Real.sin delta * Real.cos lat1)
      (Real.cos delta - Real.sin lat1 * Real.sin lat2)
  (degrees lat2, degrees lon2)

/-- Modelled from the spec: the spherical direct-geodesic formula exactly
as written in §4.2 of the specification, for the refinement comparison
with the code's `projectPoint`. -/
noncomputable def projectPointSpec (lat lon bearing_deg distance_meters : ℝ) : ℝ × ℝ :=
  let lat1 := radians lat
  let lon1 := radians lon
  let bearing := radians bearing_deg
  let delta := distance_meters / earthRadius
  let lat2 := Real.arcsin (Real.sin lat1 * Real.cos delta +
      Real.cos lat1 * Real.sin delta * Real.cos bearing)
  let lon2 := lon1 + atan2
      (Real.sin bearing * Real.sin delta * Real.cos lat1)
      (Real.cos delta - Real.sin lat1 * Real.sin lat2)
  (degrees lat2, degrees lon2)

/-! ### Association-list lemmas -/

theorem aGet_aSet_self {α : Type} (l : List (String × α)) (k : String) (v : α) :
    aGet (aSet l k v) k = some v := by
  induction l with
  | nil => simp [aGet, aSet]
  | cons hd tl ih =>
      obtain ⟨k0, v0⟩ := hd
      by_cases h : k0 = k
      · subst h; simp [aGet, aSet]
      · simp [aGet, aSet, h, ih]

theorem aGet_aSet_ne {α : Type} (l : List (String × α)) (k x : String) (v : α)
    (h : x ≠ k) : aGet (aSet l k v) x = aGet l x := by
  have hkx : ¬(k = x) := fun hh => h hh.symm
  induction l with
  | nil => simp [aGet, aSet, hkx]
  | cons hd tl ih =>
      obtain ⟨k0, v0⟩ := hd
      by_cases h0 : k0 = k
      · subst h0; simp [aGet, aSet, hkx]
      · by_cases h1 : k0 = x
        · subst h1; simp [aGet, aSet, h0]
        · simp [aGet, aSet, h0, h1, ih]

theorem aGet_eq_none_of_not_mem {α : Type} (l : List (String × α)) (k : String)
    (h : k ∉ l.map Prod.fst) : aGet l k = none := by
  induction l with
  | nil => rfl
  | cons hd tl ih =>
      obtain ⟨k0, v0⟩ := hd
      simp only [List.map_cons, List.mem_cons] at h
      push_neg at h
      have h1 : ¬(k0 = k) := fun hh => h.1 hh.symm
      simp [aGet, h1, ih h.2]

theorem aGet_dupdate (d e : Dict) (x : String) (he : (e.map Prod.fst).Nodup) :
    aGet (dupdate d e) x =
      match aGet e x with
      | some v => some v
      | none => aGet d x := by
  induction e generalizing d with
  | nil => simp [dupdate, aGet]
  | cons hd rest ih =>
      obtain ⟨k, v⟩ := hd
      simp only [List.map_cons, List.nodup_cons] at he
      rw [show dupdate d ((k, v) :: rest) = dupdate (aSet d k v) rest from rfl,
          ih (aSet d k v) he.2]
      by_cases hx : k = x
      · subst hx
        rw [aGet_eq_none_of_not_mem rest k he.1]
        simp [aGet, aGet_aSet_self]
      · simp [aGet, hx, aGet_aSet_ne d k x v (fun hh => hx hh.symm)]

theorem expandPoint_def {D : Type} (proj : String → Nat → D → String) (d : D)
    (layer : Nat) (parent : String) (st : GenState D) :
    expandPoint proj d layer parent st
      = List.foldl (expandStep proj d layer parent) st bearingsDirections := rfl

theorem processLevel_cons {D : Type} (proj : String → Nat → D → String) (d : D)
    (layer : Nat) (st : GenState D) (p : String × Nat) (rest : List (String × Nat)) :
    processLevel proj d layer st (p :: rest)
      = processLevel proj d layer (expandPoint proj d layer p.1 st) rest := by
  simp only [processLevel, List.foldl_cons]

theorem foldl_expandStep_records {D : Type} (proj : String → Nat → D → String)
    (d : D) (layer : Nat) (parent : String) (bds : List (Nat × String)) :
    ∀ st : GenState D,
      (List.foldl (expandStep proj d layer parent) st bds).records
        = st.records ++ bds.map (fun bd => ⟨parent, proj parent bd.1 d, layer, bd.2, d⟩) := by
  induction bds with
  | nil => intro st; simp
  | cons bd rest ih =>
      intro st
      rw [List.foldl_cons, ih]
      simp [expandStep]

theorem expandPoint_records {D : Type} (proj : String → Nat → D → String)
    (d : D) (layer : Nat) (parent : String) (st : GenState D) :
    (expandPoint proj d layer parent st).records
      = st.records ++ recordsOfParent proj d layer parent :=
  foldl_expandStep_records proj d layer parent bearingsDirections st

theorem processLevel_records {D : Type} (proj : String → Nat → D → String)
    (d : D) (layer : Nat) (frontier : List (String × Nat)) :
    ∀ st : GenState D,
      (processLevel proj d layer st frontier).records
        = st.records ++ levelRecords proj d layer frontier := by
  induction frontier with
  | nil => intro st; simp [processLevel, levelRecords]
  | cons p rest ih =>
      intro st
      rw [processLevel_cons, ih, expandPoint_records, levelRecords, List.append_assoc]

theorem expandStep_queue_cases {D : Type} (proj : String → Nat → D → String)
    (d : D) (layer : Nat) (parent : String) (st : GenState D) (bd : Nat × String) :
    (expandStep proj d layer parent st bd).queue = st.queue ∨
    (expandStep proj d layer parent st bd).queue
      = st.queue ++ [(proj parent bd.1 d, layer)] := by
  simp only [expandStep, visitUpdate]
  split
  · exact Or.inr rfl
  · exact Or.inl rfl

theorem expandStep_points_preserved {D : Type} (proj : String → Nat → D → String)
    (d : D) (layer : Nat) (parent : String) (st : GenState D) (bd : Nat × String)
    (x : String) (l : Nat) (hl : l ≤ layer) (hx : aGet st.points x = some l) :
    aGet (expandStep proj d layer parent st bd).points x = some l := by
  simp only [expandStep, visitUpdate]
  split
  · rename_i hcond
    by_cases hcx : proj parent bd.1 d = x
    · rw [hcx, hx] at hcond
      simp at hcond
      omega
    · simpa [aGet_aSet_ne st.points (proj parent bd.1 d) x layer
        (fun hh => hcx hh.symm)] using hx
  · exact hx

theorem expandStep_queue_avoid {D : Type} (proj : String → Nat → D → String)
    (d : D) (layer : Nat) (parent : String) (st : GenState D) (bd : Nat × String)
    (x : String) (l : Nat) (hl : l ≤ layer) (hx : aGet st.points x = some l) :
    ∀ q ∈ (expandStep proj d layer parent st bd).queue, q ∈ st.queue ∨ q.1 ≠ x := by
  intro q hq
  simp only [expandStep, visitUpdate] at hq
  revert hq
  split
  · rename_i hcond
    intro hq
    rcases List.mem_append.mp hq with h | h
    · exact Or.inl h
    · simp only [List.mem_singleton] at h
      subst h
      refine Or.inr ?_
      intro hcx
      rw [show (proj parent bd.1 d, layer).1 = proj parent bd.1 d from rfl] at hcx
      rw [hcx, hx] at hcond
      simp at hcond
      omega
  · intro hq; exact Or.inl hq

theorem foldl_expandStep_queue {D : Type} (proj : String → Nat → D → String)
    (d : D) (layer : Nat) (parent : String) (bds : List (Nat × String)) :
    ∀ st : GenState D, ∃ t,
      (List.foldl (expandStep proj d layer parent) st bds).queue = st.queue ++ t ∧
      t.length ≤ bds.length ∧
      ∀ q ∈ t, q.2 = layer ∧ ∃ bd ∈ bds, q.1 = proj parent bd.1 d := by
  induction bds with
  | nil => intro st; exact ⟨[], by simp, by simp, by simp⟩
  | cons bd rest ih =>
      intro st
      obtain ⟨t1, ht1, hlen1, hmem1⟩ := ih (expandStep proj d layer parent st bd)
      rcases expandStep_queue_cases proj d layer parent st bd with h | h
      · refine ⟨t1, by rw [List.foldl_cons, ht1, h], by simpa using Nat.le_succ_of_le hlen1, ?_⟩
        intro q hq
        obtain ⟨h2, bd2, hbd2, he⟩ := hmem1 q hq
        exact ⟨h2, bd2, List.mem_cons_of_mem bd hbd2, he⟩
      · refine ⟨(proj parent bd.1 d, layer) :: t1, ?_, by simpa using hlen1, ?_⟩
        · rw [List.foldl_cons, ht1, h, List.append_assoc]
          rfl
        · intro q hq
          rcases List.mem_cons.mp hq with h2 | h2
          · subst h2; exact ⟨rfl, bd, List.mem_cons_self bd rest, rfl⟩
          · obtain ⟨h3, bd2, hbd2, he⟩ := hmem1 q h2
            exact ⟨h3, bd2, List.mem_cons_of_mem bd hbd2, he⟩

theorem foldl_expandStep_avoid {D : Type} (proj : String → Nat → D → String)
    (d : D) (layer : Nat) (parent : String) (x : String) (l : Nat) (hl : l ≤ layer)
    (bds : List (Nat × String)) :
    ∀ st : GenState D, aGet st.points x = some l →
      aGet (List.foldl (expandStep proj d layer parent) st bds).points x = some l ∧
      ∀ q ∈ (List.foldl (expandStep proj d layer parent) st bds).queue,
        q ∈ st.queue ∨ q.1 ≠ x := by
  induction bds with
  | nil => intro st hx; exact ⟨hx, fun q hq => Or.inl hq⟩
  | cons bd rest ih =>
      intro st hx
      have hx1 := expandStep_points_preserved proj d layer parent st bd x l hl hx
      obtain ⟨hp, hq⟩ := ih (expandStep proj d layer parent st bd) hx1
      refine ⟨by rw [List.foldl_cons]; exact hp, ?_⟩
      intro q hmem
      rw [List.foldl_cons] at hmem
      rcases hq q hmem with h | h
      · exact expandStep_queue_avoid proj d layer parent st bd x l hl hx q h
      · exact Or.inr h

theorem expandPoint_avoid {D : Type} (proj : String → Nat → D → String)
    (d : D) (layer : Nat) (parent : String) (x : String) (l : Nat) (hl : l ≤ layer)
    (st : GenState D) (hx : aGet st.points x = some l) :
    aGet (expandPoint proj d layer parent st).points x = some l ∧
    ∀ q ∈ (expandPoint proj d layer parent st).queue, q ∈ st.queue ∨ q.1 ≠ x :=
  foldl_expandStep_avoid proj d layer parent x l hl bearingsDirections st hx

theorem processLevel_queue {D : Type} (proj : String → Nat → D → String)
    (d : D) (layer : Nat) (frontier : List (String × Nat)) :
    ∀ st : GenState D, ∃ t,
      (processLevel proj d layer st frontier).queue = st.queue ++ t ∧
      t.length ≤ 8 * frontier.length ∧
      ∀ q ∈ t, q.2 = layer ∧
        ∃ p ∈ frontier, ∃ bd ∈ bearingsDirections, q.1 = proj p.1 bd.1 d := by
  induction frontier with
  | nil => intro st; exact ⟨[], by simp [processLevel], by simp, by simp⟩
  | cons p rest ih =>
      intro st
      obtain ⟨t0, ht0, hlen0, hmem0⟩ :=
        foldl_expandStep_queue proj d layer p.1 bearingsDirections st
      obtain ⟨t1, ht1, hlen1, hmem1⟩ := ih (expandPoint proj d layer p.1 st)
      have ht0e : (expandPoint proj d layer p.1 st).queue = st.queue ++ t0 := by
        rw [expandPoint_def]; exact ht0
      refine ⟨t0 ++ t1, ?_, ?_, ?_⟩
      · rw [processLevel_cons, ht1, ht0e, List.append_assoc]
      · have h8 : t0.length ≤ 8 := by simpa [bearingsDirections] using hlen0
        simp only [List.length_append, List.length_cons]
        omega
      · intro q hq
        rcases List.mem_append.mp hq with h | h
        · obtain ⟨h2, bd, hbd, he⟩ := hmem0 q h
          exact ⟨h2, p, List.mem_cons_self p rest, bd, hbd, he⟩
        · obtain ⟨h2, p2, hp2, bd, hbd, he⟩ := hmem1 q h
          exact ⟨h2, p2, List.mem_cons_of_mem p hp2, bd, hbd, he⟩

theorem processLevel_avoid {D : Type} (proj : String → Nat → D → String)
    (d : D) (layer : Nat) (x : String) (l : Nat) (hl : l ≤ layer)
    (frontier : List (String × Nat)) :
    ∀ st : GenState D, aGet st.points x = some l →
      aGet (processLevel proj d layer st frontier).points x = some l ∧
      ∀ q ∈ (processLevel proj d layer st frontier).queue, q ∈ st.queue ∨ q.1 ≠ x := by
  induction frontier with
  | nil => intro st hx; exact ⟨hx, fun q hq => Or.inl hq⟩
  | cons p rest ih =>
      intro st hx
      obtain ⟨hp1, hq1⟩ := expandPoint_avoid proj d layer p.1 x l hl st hx
      obtain ⟨hp2, hq2⟩ := ih (expandPoint proj d layer p.1 st) hp1
      rw [processLevel_cons]
      refine ⟨hp2, ?_⟩
      intro q hmem
      rcases hq2 q hmem with h | h
      · exact hq1 q h
      · exact Or.inr h

theorem recordsOfParent_length {D : Type} (proj : String → Nat → D → String)
    (d : D) (layer : Nat) (parent : String) :
    (recordsOfParent proj d layer parent).length = 8 := by
  simp [recordsOfParent, bearingsDirections]

theorem levelRecords_length {D : Type} (proj : String → Nat → D → String)
    (d : D) (layer : Nat) (frontier : List (String × Nat)) :
    (levelRecords proj d layer frontier).length = 8 * frontier.length := by
  induction frontier with
  | nil => simp [levelRecords]
  | cons p rest ih =>
      simp only [levelRecords, List.length_append, List.length_cons,
        recordsOfParent_length, ih]
      omega

theorem mem_levelRecords {D : Type} (proj : String → Nat → D → String) (d : D)
    (layer : Nat) (frontier : List (String × Nat)) (r : Record D) :
    r ∈ levelRecords proj d layer frontier ↔
      ∃ p ∈ frontier, r ∈ recordsOfParent proj d layer p.1 := by
  induction frontier with
  | nil => simp [levelRecords]
  | cons p rest ih => simp [levelRecords, List.mem_append, ih]

theorem of_mem_recordsOfParent {D : Type} (proj : String → Nat → D → String)
    (d : D) (layer : Nat) (parent : String) (r : Record D)
    (hr : r ∈ recordsOfParent proj d layer parent) :
    r.layer = layer ∧ r.parent_coord = parent := by
  rw [recordsOfParent, List.mem_map] at hr
  obtain ⟨bd, hbd, he⟩ := hr
  constructor <;> rw [← he]

/-- C5: for a single-element distance list `[d]`, `generate_snowflake_coordinates`
produces exactly 8 records, one per direction in the fixed order
N, NE, E, SE, S, SW, W, NW (bearings 0°..315°), each with layer 1, parent
equal to the origin, and distance `d`; the records are emitted
unconditionally, independently of the visited-set bookkeeping. -/
theorem snowflake_single_distance {D : Type} (proj : String → Nat → D → String)
    (origin : String) (d : D) (h : wellFormedCoord origin = true) :
    generate_snowflake_coordinates proj origin [d] = .ok
      [⟨origin, proj origin 0 d, 1, "N", d⟩,
       ⟨origin, proj origin 45 d, 1, "NE", d⟩,
       ⟨origin, proj origin 90 d, 1, "E", d⟩,
       ⟨origin, proj origin 135 d, 1, "SE", d⟩,
       ⟨origin, proj origin 180 d, 1, "S", d⟩,
       ⟨origin, proj origin 225 d, 1, "SW", d⟩,
       ⟨origin, proj origin 270 d, 1, "W", d⟩,
       ⟨origin, proj origin 315 d, 1, "NW", d⟩] := by
  rw [generate_snowflake_coordinates, if_pos h]
  have e : runLevels proj [d] 1 (initGenState origin)
      = processLevel proj d 1 (⟨[], [(origin, 0)], [], [(origin, 0)]⟩ : GenState D)
          [(origin, 0)] := by
    rw [runLevels, runLevels]
    simp [initGenState]
  rw [e, processLevel_records]
  simp [levelRecords, recordsOfParent, bearingsDirections]

theorem snowflake_single_distance_witness :
    wellFormedCoord "40.748817, -73.985428" = true ∧
    generate_snowflake_coordinates sampleProj "40.748817, -73.985428" [1000] = .ok
      [⟨"40.748817, -73.985428", sampleProj "40.748817, -73.985428" 0 1000, 1, "N", 1000⟩,
       ⟨"40.748817, -73.985428", sampleProj "40.748817, -73.985428" 45 1000, 1, "NE", 1000⟩,
       ⟨"40.748817, -73.985428", sampleProj "40.748817, -73.985428" 90 1000, 1, "E", 1000⟩,
       ⟨"40.748817, -73.985428", sampleProj "40.748817, -73.985428" 135 1000, 1, "SE", 1000⟩,
       ⟨"40.748817, -73.985428", sampleProj "40.748817, -73.985428" 180 1000, 1, "S", 1000⟩,
       ⟨"40.748817, -73.985428", sampleProj "40.748817, -73.985428" 225 1000, 1, "SW", 1000⟩,
       ⟨"40.748817, -73.985428", sampleProj "40.748817, -73.985428" 270 1000, 1, "W", 1000⟩,
       ⟨"40.748817, -73.985428", sampleProj "40.748817, -73.985428" 315 1000, 1, "NW", 1000⟩] :=
  ⟨by decide, snowflake_single_distance sampleProj "40.748817, -73.985428" 1000 (by decide)⟩

/-- C4: for a two-element distance list `[d1, d2]`,
`generate_snowflake_coordinates` produces exactly 8 layer-1 records and at
most 64 layer-2 records, and every layer-2 record's parent coordinate is
the candidate coordinate of some layer-1 record — never the origin itself
(the frontier is frozen per distance, so points added during a pass are
expanded only in the next pass). -/
theorem snowflake_two_distances {D : Type} (proj : String → Nat → D → String)
    (origin : String) (d1 d2 : D) (h : wellFormedCoord origin = true) :
    ∃ recs, generate_snowflake_coordinates proj origin [d1, d2] = .ok recs ∧
      (recs.filter (fun r => r.layer == 1)).length = 8 ∧
      (recs.filter (fun r => r.layer == 2)).length ≤ 64 ∧
      ∀ r ∈ recs, r.layer = 2 →
        ((∃ r1 ∈ recs, r1.layer = 1 ∧ r1.new_coord = r.parent_coord) ∧
          r.parent_coord ≠ origin) := by
  obtain ⟨t1, ht1, hlen1, hmem1⟩ := processLevel_queue proj d1 1 [(origin, 0)]
      (⟨[], [(origin, 0)], [], [(origin, 0)]⟩ : GenState D)
  obtain ⟨hpres, havoid⟩ := processLevel_avoid proj d1 1 origin 0 (by omega) [(origin, 0)]
      (⟨[], [(origin, 0)], [], [(origin, 0)]⟩ : GenState D) (by simp [aGet])
  simp only [List.nil_append] at ht1
  simp only [List.mem_nil_iff, false_or] at havoid
  rw [ht1] at havoid
  simp only [List.length_cons, List.length_nil, Nat.mul_one] at hlen1
  have hrecA : (processLevel proj d1 1 (⟨[], [(origin, 0)], [], [(origin, 0)]⟩ : GenState D)
      [(origin, 0)]).records = recordsOfParent proj d1 1 origin := by
    rw [processLevel_records]
    simp [levelRecords]
  have e1 : runLevels proj [d1, d2] 1 (initGenState origin)
      = runLevels proj [d2] 2 (processLevel proj d1 1
          (⟨[], [(origin, 0)], [], [(origin, 0)]⟩ : GenState D) [(origin, 0)]) := by
    rw [runLevels]
    simp [initGenState]
  have e2 : runLevels proj [d2] 2 (processLevel proj d1 1
        (⟨[], [(origin, 0)], [], [(origin, 0)]⟩ : GenState D) [(origin, 0)])
      = processLevel proj d2 2
          { processLevel proj d1 1
              (⟨[], [(origin, 0)], [], [(origin, 0)]⟩ : GenState D) [(origin, 0)]
              with queue := [] }
          (processLevel proj d1 1
              (⟨[], [(origin, 0)], [], [(origin, 0)]⟩ : GenState D) [(origin, 0)]).queue := by
    rw [runLevels, runLevels]
  have hrec : (runLevels proj [d1, d2] 1 (initGenState origin)).records
      = recordsOfParent proj d1 1 origin ++ levelRecords proj d2 2 t1 := by
    rw [e1, e2, processLevel_records, ht1]
    simp [hrecA]
  have hall1 : ∀ r ∈ recordsOfParent proj d1 1 origin, r.layer = 1 ∧ r.parent_coord = origin :=
    fun r hr => of_mem_recordsOfParent proj d1 1 origin r hr
  have hall2 : ∀ r ∈ levelRecords proj d2 2 t1, r.layer = 2 := by
    intro r hr
    obtain ⟨p, hp, hrop⟩ := (mem_levelRecords proj d2 2 t1 r).mp hr
    exact (of_mem_recordsOfParent proj d2 2 p.1 r hrop).1
  refine ⟨recordsOfParent proj d1 1 origin ++ levelRecords proj d2 2 t1, ?_, ?_, ?_, ?_⟩
  · rw [generate_snowflake_coordinates, if_pos h, hrec]
  · rw [List.filter_append]
    have hA : (recordsOfParent proj d1 1 origin).filter (fun r => r.layer == 1)
        = recordsOfParent proj d1 1 origin := by
      rw [List.filter_eq_self]
      intro a ha
      simp [(hall1 a ha).1]
    have hB : (levelRecords proj d2 2 t1).filter (fun r => r.layer == 1) = [] := by
      rw [List.filter_eq_nil_iff]
      intro a ha
      simp [hall2 a ha]
    rw [hA, hB, List.append_nil, recordsOfParent_length]
  · rw [List.filter_append]
    have hA : (recordsOfParent proj d1 1 origin).filter (fun r => r.layer == 2) = [] := by
      rw [List.filter_eq_nil_iff]
      intro a ha
      simp [(hall1 a ha).1]
    rw [hA, List.nil_append]
    calc ((levelRecords proj d2 2 t1).filter (fun r => r.layer == 2)).length
        ≤ (levelRecords proj d2 2 t1).length := List.length_filter_le _ _
      _ = 8 * t1.length := levelRecords_length proj d2 2 t1
      _ ≤ 64 := by omega
  · intro r hr hr2
    rcases List.mem_append.mp hr with hmA | hmB
    · exact absurd hr2 (by simp [(hall1 r hmA).1])
    · obtain ⟨q, hq, hrop⟩ := (mem_levelRecords proj d2 2 t1 r).mp hmB
      have hparent : r.parent_coord = q.1 := (of_mem_recordsOfParent proj d2 2 q.1 r hrop).2
      obtain ⟨hq2, p, hp, bd, hbd, he⟩ := hmem1 q hq
      have hpe : p = (origin, 0) := List.mem_singleton.mp hp
      subst hpe
      have hq1 : q.1 = proj origin bd.1 d1 := he
      constructor
      · refine ⟨⟨origin, proj origin bd.1 d1, 1, bd.2, d1⟩, ?_, rfl, ?_⟩
        · refine List.mem_append_left _ ?_
          rw [recordsOfParent, List.mem_map]
          exact ⟨bd, hbd, rfl⟩
        · rw [hparent, hq1]
      · rw [hparent]
        exact havoid q hq

theorem snowflake_two_distances_witness :
    wellFormedCoord "40.758, -73.9855" = true ∧
    (∃ recs, generate_snowflake_coordinates sampleProj "40.758, -73.9855" [1000, 1000] = .ok recs ∧
      (recs.filter (fun r => r.layer == 1)).length = 8 ∧
      (recs.filter (fun r => r.layer == 2)).length ≤ 64 ∧
      ∀ r ∈ recs, r.layer = 2 →
        ((∃ r1 ∈ recs, r1.layer = 1 ∧ r1.new_coord = r.parent_coord) ∧
          r.parent_coord ≠ "40.758, -73.9855")) :=
  ⟨by decide, snowflake_two_distances sampleProj "40.758, -73.9855" 1000 1000 (by decide)⟩

theorem SchedInv.mono {D : Type} {st : GenState D} {layer layer2 : Nat}
    (h : SchedInv st layer) (hle : layer ≤ layer2) : SchedInv st layer2 := by
  obtain ⟨h1, h2, h3, h4, h5, h6⟩ := h
  exact ⟨fun x l hx => le_trans (h1 x l hx) hle, h2, h3, h4,
         fun e he => le_trans (h5 e he) hle, h6⟩

theorem expandStep_eq_of_none {D : Type} (proj : String → Nat → D → String) (d : D)
    (layer : Nat) (parent : String) (st : GenState D) (bd : Nat × String)
    (hget : aGet st.points (proj parent bd.1 d) = none) :
    expandStep proj d layer parent st bd =
      { queue := st.queue ++ [(proj parent bd.1 d, layer)]
        points := aSet st.points (proj parent bd.1 d) layer
        records := st.records ++ [⟨parent, proj parent bd.1 d, layer, bd.2, d⟩]
        log := st.log ++ [(proj parent bd.1 d, layer)] } := by
  simp [expandStep, visitUpdate, hget]

theorem expandStep_eq_of_low {D : Type} (proj : String → Nat → D → String) (d : D)
    (layer : Nat) (parent : String) (st : GenState D) (bd : Nat × String) (l0 : Nat)
    (hget : aGet st.points (proj parent bd.1 d) = some l0) (hle : ¬ layer < l0) :
    expandStep proj d layer parent st bd =
      { queue := st.queue
        points := st.points
        records := st.records ++ [⟨parent, proj parent bd.1 d, layer, bd.2, d⟩]
        log := st.log } := by
  simp [expandStep, visitUpdate, hget, hle]

theorem expandStep_inv {D : Type} (proj : String → Nat → D → String) (d : D)
    (layer : Nat) (parent : String) (st : GenState D) (bd : Nat × String)
    (h : SchedInv st layer) :
    SchedInv (expandStep proj d layer parent st bd) layer := by
  obtain ⟨h1, h2, h3, h4, h5, h6⟩ := h
  rcases hget : aGet st.points (proj parent bd.1 d) with _ | l0
  · -- the candidate is absent from the visited set: it is inserted and logged
    rw [expandStep_eq_of_none proj d layer parent st bd hget]
    refine ⟨?_, ?_, ?_, ?_, ?_, ?_⟩ <;> dsimp only
    · intro x l hx
      by_cases hx2 : proj parent bd.1 d = x
      · rw [← hx2, aGet_aSet_self] at hx
        have : layer = l := by exact Option.some.inj hx
        omega
      · rw [aGet_aSet_ne _ _ _ _ (fun hh => hx2 hh.symm)] at hx
        exact h1 x l hx
    · simp only [List.map_append]
      refine List.Nodup.append h2 ?_ ?_
      · simp only [List.map_cons, List.map_nil]
        exact List.nodup_singleton _
      · simp only [List.map_cons, List.map_nil]
        rw [List.disjoint_singleton]
        exact h6 _ hget
    · intro e he
      rcases List.mem_append.mp he with he2 | he2
      · have hne : e.1 ≠ proj parent bd.1 d := by
          intro hh
          have := h3 e he2
          rw [hh, hget] at this
          exact absurd this (by simp)
        rw [aGet_aSet_ne _ _ _ _ hne]
        exact h3 e he2
      · simp only [List.mem_singleton] at he2
        subst he2
        exact aGet_aSet_self _ _ _
    · rw [List.chain'_append]
      refine ⟨h4, List.chain'_singleton _, ?_⟩
      intro x hx y hy
      simp only [List.head?_cons, Option.mem_def, Option.some.injEq] at hy
      obtain ⟨hne, rfl⟩ := List.mem_getLast?_eq_getLast hx
      rw [← hy]
      exact h5 _ (List.getLast_mem hne)
    · intro e he
      rcases List.mem_append.mp he with he2 | he2
      · exact h5 e he2
      · simp only [List.mem_singleton] at he2
        subst he2
        exact le_refl layer
    · intro x hx
      have hne : proj parent bd.1 d ≠ x := by
        intro hh
        rw [hh, aGet_aSet_self] at hx
        exact absurd hx (by simp)
      rw [aGet_aSet_ne _ _ _ _ (fun hh => hne hh.symm)] at hx
      simp only [List.map_append, List.mem_append]
      rintro (hmem | hmem)
      · exact h6 x hx hmem
      · simp only [List.map_cons, List.map_nil, List.mem_singleton] at hmem
        exact hne hmem.symm
  · -- the candidate is already recorded at layer `l0 ≤ layer`: the guard
    -- `current_layer < l0` fails and the state is unchanged
    have hl0 : l0 ≤ layer := h1 _ _ hget
    rw [expandStep_eq_of_low proj d layer parent st bd l0 hget (by omega)]
    exact ⟨h1, h2, h3, h4, h5, h6⟩

theorem foldl_expandStep_inv {D : Type} (proj : String → Nat → D → String) (d : D)
    (layer : Nat) (parent : String) (bds : List (Nat × String)) :
    ∀ st : GenState D, SchedInv st layer →
      SchedInv (List.foldl (expandStep proj d layer parent) st bds) layer := by
  induction bds with
  | nil => intro st h; exact h
  | cons bd rest ih =>
      intro st h
      rw [List.foldl_cons]
      exact ih _ (expandStep_inv proj d layer parent st bd h)

theorem processLevel_inv {D : Type} (proj : String → Nat → D → String) (d : D)
    (layer : Nat) (frontier : List (String × Nat)) :
    ∀ st : GenState D, SchedInv st layer →
      SchedInv (processLevel proj d layer st frontier) layer := by
  induction frontier with
  | nil => intro st h; exact h
  | cons p rest ih =>
      intro st h
      rw [processLevel_cons]
      exact ih _ (foldl_expandStep_inv proj d layer p.1 bearingsDirections st h)

theorem setQueue_inv {D : Type} (st : GenState D) (layer : Nat)
    (h : SchedInv st layer) : SchedInv ({ st with queue := [] } : GenState D) layer := h

theorem runLevels_inv {D : Type} (proj : String → Nat → D → String) (ds : List D) :
    ∀ (layer : Nat) (st : GenState D), SchedInv st layer →
      SchedInv (runLevels proj ds layer st) (layer + ds.length) := by
  induction ds with
  | nil => intro layer st h; simpa [runLevels] using h
  | cons d rest ih =>
      intro layer st h
      rw [runLevels]
      have h2 := processLevel_inv proj d layer st.queue
        ({ st with queue := [] } : GenState D) (setQueue_inv st layer h)
      have h3 := ih (layer + 1) _ (SchedInv.mono h2 (Nat.le_succ layer))
      have : layer + 1 + rest.length = layer + (d :: rest).length := by
        simp [List.length_cons]; omega
      rwa [this] at h3

theorem aGet_singleton {α : Type} (k x : String) (v : α) :
    aGet [(k, v)] x = if k = x then some v else none := rfl

/-- C9: in any run of the generator the layer never decreases and each
recorded layer is at most the current layer, so the relaxation guard
`all_points[coord] > current_layer` never fires: the ghost enqueue log of
a full run has pairwise-distinct coordinates (each canonical coordinate is
enqueued at most once), its layers are nondecreasing, and every logged
entry still carries its originally recorded layer in the final visited
set (no entry is ever overwritten). -/
theorem snowflake_schedule_run {D : Type} (proj : String → Nat → D → String)
    (origin : String) (ds : List D) :
    (((runLevels proj ds 1 (initGenState origin)).log.map Prod.fst).Nodup) ∧
    List.Chain' (fun a b => a.2 ≤ b.2) (runLevels proj ds 1 (initGenState origin)).log ∧
    (∀ e ∈ (runLevels proj ds 1 (initGenState origin)).log,
      aGet (runLevels proj ds 1 (initGenState origin)).points e.1 = some e.2) := by
  have hinit : SchedInv (initGenState origin : GenState D) 1 := by
    refine ⟨?_, ?_, ?_, ?_, ?_, ?_⟩
    · intro x l hx
      simp only [initGenState] at hx
      rw [aGet_singleton] at hx
      split at hx
      · cases hx; omega
      · exact absurd hx (by simp)
    · simp [initGenState]
    · intro e he
      simp only [initGenState, List.mem_singleton] at he
      subst he
      simp [initGenState, aGet]
    · simp [initGenState]
    · intro e he
      simp only [initGenState, List.mem_singleton] at he
      subst he
      omega
    · intro x hx
      simp only [initGenState] at hx ⊢
      rw [aGet_singleton] at hx
      split at hx
      · exact absurd hx (by simp)
      · rename_i hne
        simp only [List.map_cons, List.map_nil, List.mem_singleton]
        exact fun hh => hne hh.symm
  obtain ⟨g1, g2, g3, g4, g5, g6⟩ := runLevels_inv proj ds 1 (initGenState origin) hinit
  exact ⟨g2, g4, g3⟩

/-- C6: the visited-set update of one candidate at one layer maps the
candidate to the lowest layer at which it has been scheduled (the minimum
of the previously recorded layer, if any, and the current layer); a
coordinate already present is re-enqueued exactly when reached at a layer
strictly lower than its recorded layer, and when reached at an equal or
higher layer the visited set, the queue and the log are all left
unchanged. -/
theorem visitUpdate_lowest_layer (points queue log : List (String × Nat))
    (c : String) (layer : Nat) :
    (aGet (visitUpdate points queue log c layer).1 c
      = some (match aGet points c with | none => layer | some l => min l layer)) ∧
    (∀ l, aGet points c = some l → layer < l →
      visitUpdate points queue log c layer
        = (aSet points c layer, queue ++ [(c, layer)], log ++ [(c, layer)])) ∧
    (∀ l, aGet points c = some l → l ≤ layer →
      visitUpdate points queue log c layer = (points, queue, log)) := by
  refine ⟨?_, ?_, ?_⟩
  · rcases hget : aGet points c with _ | l
    · have he : visitUpdate points queue log c layer
          = (aSet points c layer, queue ++ [(c, layer)], log ++ [(c, layer)]) := by
        simp [visitUpdate, hget]
      rw [he]
      dsimp only
      rw [aGet_aSet_self]
    · by_cases hlt : layer < l
      · have he : visitUpdate points queue log c layer
            = (aSet points c layer, queue ++ [(c, layer)], log ++ [(c, layer)]) := by
          simp [visitUpdate, hget, hlt]
        rw [he]
        dsimp only
        rw [aGet_aSet_self]
        have hm : min l layer = layer := by omega
        simp [hm]
      · have he : visitUpdate points queue log c layer = (points, queue, log) := by
          simp [visitUpdate, hget, hlt]
        rw [he]
        dsimp only
        rw [hget]
        have hm : min l layer = l := by omega
        simp [hm]
  · intro l hget hlt
    simp [visitUpdate, hget, hlt]
  · intro l hget hle
    simp [visitUpdate, hget, show ¬ layer < l from by omega]

theorem visitUpdate_lowest_layer_witness :
    aGet (visitUpdate [("a", 3)] [] [] "a" 2).1 "a" = some (min 3 2) ∧
    visitUpdate [("a", 3)] [] [] "a" 2
      = (aSet [("a", 3)] "a" 2, [("a", 2)], [("a", 2)]) ∧
    visitUpdate [("a", 5)] [] [] "a" 5 = ([("a", 5)], [], []) :=
  ⟨(visitUpdate_lowest_layer [("a", 3)] [] [] "a" 2).1,
   (visitUpdate_lowest_layer [("a", 3)] [] [] "a" 2).2.1 3 rfl (by omega),
   (visitUpdate_lowest_layer [("a", 5)] [] [] "a" 5).2.2 5 rfl (by omega)⟩

/-- C7: `generate_snowflake_coordinates` fails — with the `ValueError`
carrying the fixed format message — exactly when the input string does not
consist of two comma-separated tokens each accepted by Python's `float`;
on any such well-formed input it returns normally instead of raising. -/
theorem malformed_coordinate_iff {D : Type} (proj : String → Nat → D → String)
    (s : String) (ds : List D) :
    (generate_snowflake_coordinates proj s ds = .error snowflakeErrorMsg ↔
      ¬ ∃ a b, splitCommaChars s.toList = [a, b] ∧
        isPyFloatChars a = true ∧ isPyFloatChars b = true) ∧
    ((∃ a b, splitCommaChars s.toList = [a, b] ∧
        isPyFloatChars a = true ∧ isPyFloatChars b = true) →
      ∃ recs, generate_snowflake_coordinates proj s ds = .ok recs) := by
  have hwf : wellFormedCoord s = true ↔
      ∃ a b, splitCommaChars s.toList = [a, b] ∧
        isPyFloatChars a = true ∧ isPyFloatChars b = true := by
    unfold wellFormedCoord
    rcases hsp : splitCommaChars s.toList with _ | ⟨a, rest⟩
    · simp
    · rcases rest with _ | ⟨b, rest2⟩
      · simp
      · rcases rest2 with _ | ⟨c, rest3⟩
        · simp only [Bool.and_eq_true, List.cons.injEq, and_true]
          constructor
          · rintro ⟨ha, hb⟩
            exact ⟨a, b, ⟨rfl, rfl⟩, ha, hb⟩
          · rintro ⟨a1, b1, ⟨rfl, rfl⟩, ha, hb⟩
            exact ⟨ha, hb⟩
        · simp
  constructor
  · by_cases h : wellFormedCoord s = true
    · rw [generate_snowflake_coordinates, if_pos h]
      have hex := hwf.mp h
      constructor
      · intro hcontra
        exact absurd hcontra (by simp)
      · intro hn
        exact absurd hex hn
    · rw [generate_snowflake_coordinates, if_neg h]
      have hnex : ¬ ∃ a b, splitCommaChars s.toList = [a, b] ∧
          isPyFloatChars a = true ∧ isPyFloatChars b = true :=
        fun hex => h (hwf.mpr hex)
      exact ⟨fun _ => hnex, fun _ => rfl⟩
  · intro hex
    rw [generate_snowflake_coordinates, if_pos (hwf.mpr hex)]
    exact ⟨_, rfl⟩

theorem malformed_coordinate_iff_witness :
    generate_snowflake_coordinates sampleProj "abc" [5] = .error snowflakeErrorMsg ∧
    (∃ recs, generate_snowflake_coordinates sampleProj "1,2" [5] = .ok recs) := by
  constructor
  · refine (malformed_coordinate_iff sampleProj "abc" [5]).1.mpr ?_
    rintro ⟨a, b, hab, ha, hb⟩
    rw [show splitCommaChars "abc".toList = [['a', 'b', 'c']] from rfl] at hab
    exact absurd hab (by simp)
  · exact (malformed_coordinate_iff sampleProj "1,2" [5]).2
      ⟨['1'], ['2'], rfl, by decide, by decide⟩

/-! ### Characterisation of the fallback scan -/

theorem isHit_iff {D : Type} (client : String → Option Loc) (r : Record D) :
    isHit client r = true ↔
      ∃ loc, client r.new_coord = some loc ∧ rawClass loc ≠ some (Val.s "boundary") := by
  unfold isHit
  rcases hc : client r.new_coord with _ | loc
  · simp
  · simp

theorem scanStep_not_hit {D : Type} (client : String → Option Loc)
    (best : Option (Loc × Nat)) (r : Record D) (h : isHit client r = false) :
    scanStep client best r = best := by
  unfold isHit at h
  unfold scanStep
  rcases hc : client r.new_coord with _ | loc
  · rfl
  · rw [hc] at h
    simp only [decide_eq_false_iff_not, not_not] at h
    dsimp only
    rw [if_neg (by simp [h])]

theorem scanStep_hit {D : Type} (client : String → Option Loc)
    (best : Option (Loc × Nat)) (r : Record D) (loc : Loc)
    (hc : client r.new_coord = some loc)
    (hnb : rawClass loc ≠ some (Val.s "boundary")) :
    scanStep client best r =
      match best with
      | none => some (loc, r.layer)
      | some (bl, ml) => if r.layer < ml then some (loc, r.layer) else some (bl, ml) := by
  unfold scanStep
  rw [hc]
  dsimp only
  rw [if_pos hnb]

/-- The generalised characterisation of the fallback fold from a seeded
best: either the seed survives (no hit improves on `m0`), or the result is
the earliest hit attaining the minimal layer strictly below `m0`. -/
theorem scan_seeded {D : Type} (client : String → Option Loc) (recs : List (Record D)) :
    ∀ (l0 : Loc) (m0 : Nat),
      (List.foldl (scanStep client) (some (l0, m0)) recs = some (l0, m0) ∧
        ∀ r ∈ recs, isHit client r = true → m0 ≤ r.layer) ∨
      (∃ pre r post loc, recs = pre ++ r :: post ∧ isHit client r = true ∧
        client r.new_coord = some loc ∧
        List.foldl (scanStep client) (some (l0, m0)) recs = some (loc, r.layer) ∧
        r.layer < m0 ∧
        (∀ r2 ∈ recs, isHit client r2 = true → r.layer ≤ r2.layer) ∧
        (∀ r2 ∈ pre, isHit client r2 = true → r.layer < r2.layer)) := by
  induction recs with
  | nil => intro l0 m0; exact Or.inl ⟨rfl, by simp⟩
  | cons r rs ih =>
      intro l0 m0
      by_cases hh : isHit client r = true
      · obtain ⟨loc, hc, hnb⟩ := (isHit_iff client r).mp hh
        by_cases hlt : r.layer < m0
        · rw [List.foldl_cons, scanStep_hit client _ r loc hc hnb]
          simp only [if_pos hlt]
          rcases ih loc r.layer with ⟨heq, hall⟩ | ⟨pre, r2, post, loc2, hrec, hh2, hc2, heq, hlt2, hall, hpre⟩
          · refine Or.inr ⟨[], r, rs, loc, rfl, hh, hc, heq, hlt, ?_, by simp⟩
            intro r3 hm3 hhit3
            rcases List.mem_cons.mp hm3 with h3 | h3
            · subst h3; exact le_refl _
            · exact hall r3 h3 hhit3
          · refine Or.inr ⟨r :: pre, r2, post, loc2, by rw [hrec, List.cons_append], hh2, hc2, heq, by omega, ?_, ?_⟩
            · intro r3 hm3 hhit3
              rcases List.mem_cons.mp hm3 with h3 | h3
              · subst h3; omega
              · exact hall r3 h3 hhit3
            · intro r3 hm3 hhit3
              rcases List.mem_cons.mp hm3 with h3 | h3
              · subst h3; exact hlt2
              · exact hpre r3 h3 hhit3
        · rw [List.foldl_cons, scanStep_hit client _ r loc hc hnb]
          simp only [if_neg hlt]
          rcases ih l0 m0 with ⟨heq, hall⟩ | ⟨pre, r2, post, loc2, hrec, hh2, hc2, heq, hlt2, hall, hpre⟩
          · refine Or.inl ⟨heq, ?_⟩
            intro r3 hm3 hhit3
            rcases List.mem_cons.mp hm3 with h3 | h3
            · subst h3; omega
            · exact hall r3 h3 hhit3
          · refine Or.inr ⟨r :: pre, r2, post, loc2, by rw [hrec, List.cons_append], hh2, hc2, heq, hlt2, ?_, ?_⟩
            · intro r3 hm3 hhit3
              rcases List.mem_cons.mp hm3 with h3 | h3
              · subst h3; omega
              · exact hall r3 h3 hhit3
            · intro r3 hm3 hhit3
              rcases List.mem_cons.mp hm3 with h3 | h3
              · subst h3; omega
              · exact hpre r3 h3 hhit3
      · have hh2 : isHit client r = false := by
          simpa using hh
        rw [List.foldl_cons, scanStep_not_hit client _ r hh2]
        rcases ih l0 m0 with ⟨heq, hall⟩ | ⟨pre, r2, post, loc2, hrec, hh3, hc2, heq, hlt2, hall, hpre⟩
        · refine Or.inl ⟨heq, ?_⟩
          intro r3 hm3 hhit3
          rcases List.mem_cons.mp hm3 with h3 | h3
          · subst h3; exact absurd hhit3 hh
          · exact hall r3 h3 hhit3
        · refine Or.inr ⟨r :: pre, r2, post, loc2, by rw [hrec, List.cons_append], hh3, hc2, heq, hlt2, ?_, ?_⟩
          · intro r3 hm3 hhit3
            rcases List.mem_cons.mp hm3 with h3 | h3
            · subst h3; exact absurd hhit3 hh
            · exact hall r3 h3 hhit3
          · intro r3 hm3 hhit3
            rcases List.mem_cons.mp hm3 with h3 | h3
            · subst h3; exact absurd hhit3 hh
            · exact hpre r3 h3 hhit3

/-- The characterisation of the fallback fold from the initial
`min_layer = inf`: either there is no hit at all and the fold returns
nothing, or it returns the earliest hit with globally minimal layer. -/
theorem scan_none {D : Type} (client : String → Option Loc) (recs : List (Record D)) :
    (List.foldl (scanStep client) none recs = none ∧
      ∀ r ∈ recs, isHit client r = false) ∨
    (∃ pre r post loc, recs = pre ++ r :: post ∧ isHit client r = true ∧
      client r.new_coord = some loc ∧
      List.foldl (scanStep client) none recs = some (loc, r.layer) ∧
      (∀ r2 ∈ recs, isHit client r2 = true → r.layer ≤ r2.layer) ∧
      (∀ r2 ∈ pre, isHit client r2 = true → r.layer < r2.layer)) := by
  induction recs with
  | nil => exact Or.inl ⟨rfl, by simp⟩
  | cons r rs ih =>
      by_cases hh : isHit client r = true
      · obtain ⟨loc, hc, hnb⟩ := (isHit_iff client r).mp hh
        have hstep : scanStep client none r = some (loc, r.layer) := by
          rw [scanStep_hit client none r loc hc hnb]
        rw [List.foldl_cons, hstep]
        rcases scan_seeded client rs loc r.layer with ⟨heq, hall⟩ |
          ⟨pre, r2, post, loc2, hrec, hh2, hc2, heq, hlt2, hall, hpre⟩
        · refine Or.inr ⟨[], r, rs, loc, rfl, hh, hc, heq, ?_, by simp⟩
          intro r3 hm3 hhit3
          rcases List.mem_cons.mp hm3 with h3 | h3
          · subst h3; exact le_refl _
          · exact hall r3 h3 hhit3
        · refine Or.inr ⟨r :: pre, r2, post, loc2, by rw [hrec, List.cons_append], hh2, hc2, heq, ?_, ?_⟩
          · intro r3 hm3 hhit3
            rcases List.mem_cons.mp hm3 with h3 | h3
            · subst h3; omega
            · exact hall r3 h3 hhit3
          · intro r3 hm3 hhit3
            rcases List.mem_cons.mp hm3 with h3 | h3
            · subst h3; omega
            · exact hpre r3 h3 hhit3
      · have hh2 : isHit client r = false := by
          simpa using hh
        rw [List.foldl_cons, scanStep_not_hit client _ r hh2]
        rcases ih with ⟨heq, hall⟩ | ⟨pre, r2, post, loc2, hrec, hh3, hc2, heq, hall, hpre⟩
        · refine Or.inl ⟨heq, ?_⟩
          intro r3 hm3
          rcases List.mem_cons.mp hm3 with h3 | h3
          · subst h3; exact hh2
          · exact hall r3 h3
        · refine Or.inr ⟨r :: pre, r2, post, loc2, by rw [hrec, List.cons_append], hh3, hc2, heq, ?_, ?_⟩
          · intro r3 hm3 hhit3
            rcases List.mem_cons.mp hm3 with h3 | h3
            · subst h3; exact absurd hhit3 hh
            · exact hall r3 h3 hhit3
          · intro r3 hm3 hhit3
            rcases List.mem_cons.mp hm3 with h3 | h3
            · subst h3; exact absurd hhit3 hh
            · exact hpre r3 h3 hhit3

theorem fallbackScan_def {D : Type} (client : String → Option Loc) (recs : List (Record D)) :
    fallbackScan client recs = List.foldl (scanStep client) none recs := rfl

/-- In the fallback branch (direct lookup failed or boundary, generation
succeeded) `geocode_location` is determined by the scan result. -/
theorem geocode_location_fallback_eq {D : Type} (client : String → Nat → Option Loc)
    (coords : String) (proj : String → Nat → D → String) (levels : Int) (dist : D)
    (recs : List (Record D))
    (hgen : generate_snowflake_coordinates proj coords
        (List.replicate levels.toNat dist) = .ok recs)
    (hdirect : directHit (client coords 17) = none) :
    geocode_location client coords proj levels dist =
      match fallbackScan (fun s => client s 18) recs with
      | some (loc, minLayer) =>
          .ok (aSet (dupdate [("original_coordinate", Val.s coords)] loc.raw)
                 "perturbation_layer" (Val.n minLayer),
               (coords, 17) :: recs.map (fun r => (r.new_coord, 18)))
      | none =>
          .ok (aSet (aSet [("original_coordinate", Val.s coords)]
                   "status" (Val.s failureMessage))
                 "perturbation_layer" Val.null,
               (coords, 17) :: recs.map (fun r => (r.new_coord, 18))) := by
  unfold geocode_location
  rw [hdirect]
  dsimp only
  rw [hgen]

/-- When no fallback candidate yields a non-boundary result the resolver
produces the exhausted-failure dictionary (shared helper). -/
theorem geocode_location_exhausted {D : Type} (client : String → Nat → Option Loc)
    (coords : String) (proj : String → Nat → D → String) (levels : Int) (dist : D)
    (recs : List (Record D))
    (hgen : generate_snowflake_coordinates proj coords
        (List.replicate levels.toNat dist) = .ok recs)
    (hdirect : directHit (client coords 17) = none)
    (hmiss : ∀ r ∈ recs, isHit (fun s => client s 18) r = false) :
    geocode_location client coords proj levels dist =
      .ok ([("original_coordinate", Val.s coords),
            ("status", Val.s failureMessage),
            ("perturbation_layer", Val.null)],
           (coords, 17) :: recs.map (fun r => (r.new_coord, 18))) := by
  have hnone : fallbackScan (fun s => client s 18) recs = none := by
    rw [fallbackScan_def]
    rcases scan_none (fun s => client s 18) recs with ⟨heq, _⟩ |
      ⟨pre, r, post, loc, hrec, hh, _, _, _, _⟩
    · exact heq
    · have hmem : r ∈ recs := by
        rw [hrec]
        exact List.mem_append_right _ (List.mem_cons_self _ _)
      rw [hmiss r hmem] at hh
      exact absurd hh (by simp)
  rw [geocode_location_fallback_eq client coords proj levels dist recs hgen hdirect, hnone]
  rfl

/-- C1: in the fallback phase the resolver iterates the generated records
in generation order and a returned non-boundary result becomes the new
best only if its record's layer is strictly below the best layer so far;
consequently the location returned is the one of the earliest-enumerated
record whose layer is minimal among all records with non-boundary replies
(so ties at equal layer are broken by enumeration order), and the returned
dict is annotated with `perturbation_layer` equal to that minimal layer. -/
theorem fallback_earliest_min_layer {D : Type} (client : String → Nat → Option Loc)
    (coords : String) (proj : String → Nat → D → String)
    (levels : Int) (dist : D) (recs : List (Record D))
    (hgen : generate_snowflake_coordinates proj coords
        (List.replicate levels.toNat dist) = .ok recs)
    (hdirect : directHit (client coords 17) = none)
    (hhit : ∃ r ∈ recs, isHit (fun s => client s 18) r = true) :
    ∃ pre r post loc,
      recs = pre ++ r :: post ∧
      isHit (fun s => client s 18) r = true ∧
      client r.new_coord 18 = some loc ∧
      (∀ r2 ∈ recs, isHit (fun s => client s 18) r2 = true → r.layer ≤ r2.layer) ∧
      (∀ r2 ∈ pre, isHit (fun s => client s 18) r2 = true → r.layer < r2.layer) ∧
      geocode_location client coords proj levels dist =
        .ok (aSet (dupdate [("original_coordinate", Val.s coords)] loc.raw)
               "perturbation_layer" (Val.n r.layer),
             (coords, 17) :: recs.map (fun r2 => (r2.new_coord, 18))) ∧
      aGet (aSet (dupdate [("original_coordinate", Val.s coords)] loc.raw)
          "perturbation_layer" (Val.n r.layer)) "perturbation_layer"
        = some (Val.n r.layer) := by
  rcases scan_none (fun s => client s 18) recs with ⟨heq, hall⟩ |
    ⟨pre, r, post, loc, hrec, hh, hc, heq, hmin, hpre⟩
  · obtain ⟨r0, hr0, hh0⟩ := hhit
    rw [hall r0 hr0] at hh0
    exact absurd hh0 (by simp)
  · refine ⟨pre, r, post, loc, hrec, hh, hc, hmin, hpre, ?_, aGet_aSet_self _ _ _⟩
    rw [geocode_location_fallback_eq client coords proj levels dist recs hgen hdirect,
        fallbackScan_def, heq]

theorem fallback_earliest_min_layer_witness :
    generate_snowflake_coordinates sampleProj "40.758, -73.9855"
        (List.replicate (1 : Int).toNat 1000) = .ok scenarioRecs ∧
    directHit (scenarioClient "40.758, -73.9855" 17) = none ∧
    (∃ r ∈ scenarioRecs, isHit (fun s => scenarioClient s 18) r = true) ∧
    (∃ pre r post loc,
      scenarioRecs = pre ++ r :: post ∧
      isHit (fun s => scenarioClient s 18) r = true ∧
      scenarioClient r.new_coord 18 = some loc ∧
      (∀ r2 ∈ scenarioRecs, isHit (fun s => scenarioClient s 18) r2 = true →
        r.layer ≤ r2.layer) ∧
      (∀ r2 ∈ pre, isHit (fun s => scenarioClient s 18) r2 = true →
        r.layer < r2.layer) ∧
      geocode_location scenarioClient "40.758, -73.9855" sampleProj 1 1000 =
        .ok (aSet (dupdate [("original_coordinate", Val.s "40.758, -73.9855")] loc.raw)
               "perturbation_layer" (Val.n r.layer),
             ("40.758, -73.9855", 17) :: scenarioRecs.map (fun r2 => (r2.new_coord, 18))) ∧
      aGet (aSet (dupdate [("original_coordinate", Val.s "40.758, -73.9855")] loc.raw)
          "perturbation_layer" (Val.n r.layer)) "perturbation_layer"
        = some (Val.n r.layer)) :=
  ⟨rfl, rfl, by decide,
   fallback_earliest_min_layer scenarioClient "40.758, -73.9855" sampleProj 1 1000
     scenarioRecs rfl rfl (by decide)⟩

/-- C2 counterexample: at a concrete input where the direct lookup and all
fallback candidates return nothing, the status string produced by
`geocode_location` is "Failed to find a suitable location after all
attempts." — with a trailing period — and therefore differs from the
claimed period-less string. -/
theorem exhausted_status_has_period :
    (match geocode_location (fun _ _ => none) "1, 2" sampleProj 1 5 with
     | .ok (d, _) => aGet d "status"
     | .error _ => none)
      = some (Val.s "Failed to find a suitable location after all attempts.") ∧
    some (Val.s "Failed to find a suitable location after all attempts.")
      ≠ some (Val.s "Failed to find a suitable location after all attempts") :=
  ⟨rfl, by decide⟩

/-- C2 (amended): when the direct lookup and every fallback candidate yield
no result or a boundary result, `geocode_location` returns — it never
throws — a dict whose `status` field equals
"Failed to find a suitable location after all attempts." (with the
source's trailing period) and whose `perturbation_layer` is null. -/
theorem exhausted_failure_status {D : Type} (client : String → Nat → Option Loc)
    (coords : String) (proj : String → Nat → D → String) (levels : Int) (dist : D)
    (recs : List (Record D))
    (hgen : generate_snowflake_coordinates proj coords
        (List.replicate levels.toNat dist) = .ok recs)
    (hdirect : directHit (client coords 17) = none)
    (hmiss : ∀ r ∈ recs, isHit (fun s => client s 18) r = false) :
    ∃ d calls, geocode_location client coords proj levels dist = .ok (d, calls) ∧
      aGet d "status"
        = some (Val.s "Failed to find a suitable location after all attempts.") ∧
      aGet d "perturbation_layer" = some Val.null := by
  refine ⟨_, _,
    geocode_location_exhausted client coords proj levels dist recs hgen hdirect hmiss,
    ?_, ?_⟩ <;> rfl

theorem exhausted_failure_status_witness :
    ∃ d calls, geocode_location (fun _ _ => none) "1, 2" sampleProj 1 5 = .ok (d, calls) ∧
      aGet d "status"
        = some (Val.s "Failed to find a suitable location after all attempts.") ∧
      aGet d "perturbation_layer" = some Val.null :=
  exhausted_failure_status (fun _ _ => none) "1, 2" sampleProj 1 5 recsOneTwo
    rfl rfl (by decide)

/-- C3: if the direct (first) reverse-geocode call returns a result whose
`class` field is not "boundary", the per-row resolver returns that
result's fields with `perturbation_layer = 0` and `status = "Success"`,
and makes no geocode call beyond the first (the call log is exactly the
single zoom-17 lookup). -/
theorem direct_hit_immediate {D : Type} (client : String → Nat → Option Loc)
    (coords : String) (proj : String → Nat → D → String) (levels : Int) (dist : D)
    (loc : Loc)
    (h1 : client coords 17 = some loc)
    (h2 : rawClass loc ≠ some (Val.s "boundary"))
    (h3 : aGet loc.raw "status" = none)
    (h4 : (loc.raw.map Prod.fst).Nodup) :
    ∃ d : Dict,
      geocode_row client coords proj levels dist = (d, [(coords, 17)]) ∧
      aGet d "perturbation_layer" = some (Val.n 0) ∧
      aGet d "status" = some (Val.s "Success") ∧
      ∀ k, k ≠ "original_coordinate" → k ≠ "perturbation_layer" → k ≠ "status" →
        aGet d k = aGet loc.raw k := by
  have hdh : directHit (client coords 17) = some loc := by
    rw [h1]
    unfold directHit
    dsimp only
    rw [if_pos h2]
  have hloc_dict : geocode_location client coords proj levels dist =
      .ok (aSet (dupdate [("original_coordinate", Val.s coords)] loc.raw)
             "perturbation_layer" (Val.n 0), [(coords, 17)]) := by
    unfold geocode_location
    rw [hdh]
  have hga : ∀ k, aGet (aSet (dupdate [("original_coordinate", Val.s coords)] loc.raw)
      "perturbation_layer" (Val.n 0)) k
      = if k = "perturbation_layer" then some (Val.n 0)
        else match aGet loc.raw k with
             | some v => some v
             | none => aGet [("original_coordinate", Val.s coords)] k := by
    intro k
    by_cases hk : k = "perturbation_layer"
    · subst hk
      rw [aGet_aSet_self, if_pos rfl]
    · rw [aGet_aSet_ne _ _ _ _ hk, if_neg hk, aGet_dupdate _ _ _ h4]
  have hnostatus : dmem (aSet (dupdate [("original_coordinate", Val.s coords)] loc.raw)
      "perturbation_layer" (Val.n 0)) "status" = false := by
    unfold dmem
    rw [hga "status", if_neg (by decide), h3]
    rfl
  refine ⟨aSet (aSet (dupdate [("original_coordinate", Val.s coords)] loc.raw)
      "perturbation_layer" (Val.n 0)) "status" (Val.s "Success"), ?_, ?_, ?_, ?_⟩
  · unfold geocode_row
    rw [hloc_dict]
    dsimp only
    rw [hnostatus]
    rfl
  · rw [aGet_aSet_ne _ _ _ _ (by decide), hga, if_pos rfl]
  · exact aGet_aSet_self _ _ _
  · intro k hk1 hk2 hk3
    rw [aGet_aSet_ne _ _ _ _ hk3, hga, if_neg hk2]
    rcases hr : aGet loc.raw k with _ | v
    · rw [aGet_singleton, if_neg (fun hh => hk1 hh.symm)]
    · rfl

theorem direct_hit_immediate_witness :
    tourismClient "40.748817, -73.985428" 17 = some tourismLoc ∧
    rawClass tourismLoc ≠ some (Val.s "boundary") ∧
    (∃ d : Dict,
      geocode_row tourismClient "40.748817, -73.985428" sampleProj 2 1000
        = (d, [("40.748817, -73.985428", 17)]) ∧
      aGet d "perturbation_layer" = some (Val.n 0) ∧
      aGet d "status" = some (Val.s "Success") ∧
      ∀ k, k ≠ "original_coordinate" → k ≠ "perturbation_layer" → k ≠ "status" →
        aGet d k = aGet tourismLoc.raw k) :=
  ⟨rfl, by decide,
   direct_hit_immediate tourismClient "40.748817, -73.985428" sampleProj 2 1000
     tourismLoc rfl (by decide) rfl (by decide)⟩

/-- C10: if `perturb_levels` is zero or negative and the direct lookup
returns no result or a boundary, `geocode_location` raises no
configuration error: the distance list is empty, the generator returns an
empty record sequence, the fallback loop scans zero candidates, and the
function returns the exhausted-failure dict after only the single direct
call. -/
theorem nonpositive_levels_exhaust {D : Type} (client : String → Nat → Option Loc)
    (coords : String) (proj : String → Nat → D → String) (levels : Int) (dist : D)
    (hlev : levels ≤ 0)
    (hwf : wellFormedCoord coords = true)
    (hdirect : directHit (client coords 17) = none) :
    List.replicate levels.toNat dist = ([] : List D) ∧
    generate_snowflake_coordinates proj coords (List.replicate levels.toNat dist)
      = .ok ([] : List (Record D)) ∧
    geocode_location client coords proj levels dist =
      .ok ([("original_coordinate", Val.s coords),
            ("status", Val.s failureMessage),
            ("perturbation_layer", Val.null)],
           [(coords, 17)]) := by
  have h0 : levels.toNat = 0 := by omega
  have hrep : List.replicate levels.toNat dist = ([] : List D) := by
    rw [h0]
    rfl
  have hgen : generate_snowflake_coordinates proj coords (List.replicate levels.toNat dist)
      = .ok ([] : List (Record D)) := by
    rw [hrep, generate_snowflake_coordinates, if_pos hwf]
    rfl
  refine ⟨hrep, hgen, ?_⟩
  have h2 := geocode_location_exhausted client coords proj levels dist []
    hgen hdirect (by simp)
  simpa using h2

theorem nonpositive_levels_exhaust_witness :
    ((-3 : Int) ≤ 0) ∧ wellFormedCoord "1, 2" = true ∧
    directHit ((fun (_ : String) (_ : Nat) => (none : Option Loc)) "1, 2" 17) = none ∧
    (List.replicate (-3 : Int).toNat (5 : Nat) = ([] : List Nat) ∧
     generate_snowflake_coordinates sampleProj "1, 2" (List.replicate (-3 : Int).toNat 5)
       = .ok ([] : List (Record Nat)) ∧
     geocode_location (fun _ _ => none) "1, 2" sampleProj (-3) 5 =
       .ok ([("original_coordinate", Val.s "1, 2"),
             ("status", Val.s failureMessage),
             ("perturbation_layer", Val.null)],
            [("1, 2", 17)])) :=
  ⟨by decide, by decide, rfl,
   nonpositive_levels_exhaust (fun _ _ => none) "1, 2" sampleProj (-3) 5
     (by decide) (by decide) rfl⟩

/-- C8: every candidate coordinate is computed by the spherical
direct-geodesic formula with Earth radius R = 6,371,000 m — the code's
projection coincides with the formula stated in the spec — and the
resulting longitude is returned as-is, not normalized into (-180, 180]:
at latitude 0, longitude 180, bearing 90° (E) and distance R the produced
longitude is strictly greater than 180°. -/
theorem geodesic_formula_unnormalized :
    (∀ lat lon bearing_deg distance_meters : ℝ,
      projectPoint lat lon bearing_deg distance_meters
        = projectPointSpec lat lon bearing_deg distance_meters) ∧
    180 < (projectPoint 0 180 90 6371000).2 := by
  constructor
  · intro lat lon b d
    rfl
  · have h0 : radians 0 = 0 := by unfold radians; ring
    have h180 : radians 180 = Real.pi := by unfold radians; ring
    have h90 : radians 90 = Real.pi / 2 := by unfold radians; ring
    have hd : (6371000 : ℝ) / earthRadius = 1 := by unfold earthRadius; norm_num
    have hmem : (1 : ℝ) ∈ Set.Ioc (-Real.pi) Real.pi := by
      constructor
      · nlinarith [Real.pi_gt_three]
      · nlinarith [Real.pi_gt_three]
    have hatan : atan2 (Real.sin 1) (Real.cos 1) = 1 := by
      unfold atan2
      rw [Complex.ofReal_cos, Complex.ofReal_sin]
      exact Complex.arg_cos_add_sin_mul_I hmem
    have hsnd : (projectPoint 0 180 90 6371000).2
        = degrees (radians 180 + atan2
            (Real.sin (radians 90) * Real.sin ((6371000 : ℝ) / earthRadius) *
              Real.cos (radians 0))
            (Real.cos ((6371000 : ℝ) / earthRadius) - Real.sin (radians 0) *
              Real.sin (Real.arcsin (Real.sin (radians 0) *
                  Real.cos ((6371000 : ℝ) / earthRadius) +
                Real.cos (radians 0) * Real.sin ((6371000 : ℝ) / earthRadius) *
                  Real.cos (radians 90))))) := rfl
    rw [hsnd, h0, h90, h180, hd, Real.sin_zero, Real.cos_zero, Real.sin_pi_div_two]
    have e1 : (1 : ℝ) * Real.sin 1 * 1 = Real.sin 1 := by ring
    have e2 : Real.cos 1 - 0 *
        Real.sin (Real.arcsin (0 * Real.cos 1 + 1 * Real.sin 1 * Real.cos (Real.pi / 2)))
        = Real.cos 1 := by ring
    rw [e1, e2, hatan]
    unfold degrees
    rw [lt_div_iff₀ Real.pi_pos]
    nlinarith [Real.pi_pos]

theorem geodesic_formula_unnormalized_witness :
    projectPoint 1 2 90 500 = projectPointSpec 1 2 90 500 ∧
    180 < (projectPoint 0 180 90 6371000).2 :=
  ⟨geodesic_formula_unnormalized.1 1 2 90 500, geodesic_formula_unnormalized.2⟩

theorem snowflake_schedule_run_witness :
    (((runLevels sampleProj [5] 1 (initGenState "1, 2")).log.map Prod.fst).Nodup) ∧
    List.Chain' (fun a b => a.2 ≤ b.2) (runLevels sampleProj [5] 1 (initGenState "1, 2")).log ∧
    (∀ e ∈ (runLevels sampleProj [5] 1 (initGenState "1, 2")).log,
      aGet (runLevels sampleProj [5] 1 (initGenState "1, 2")).points e.1 = some e.2) :=
  snowflake_schedule_run sampleProj "1, 2" [5]
